import Mathlib

/-!
Verification of the scheduler, sleep service, priority-donation and
file-mapping subsystems of a Pintos-derived teaching kernel.

The definitions below are shallow embeddings of the C sources:
  * src/threads/thread.c  (scheduler, sleep service, donation)
  * src/vm/file.c         (file-backed pages, mmap/munmap)
Machine integers are modelled as `Int`/`Nat`; intrusive kernel lists are
modelled as Lean lists; the fields of `struct thread` / `struct page`
that a given operation touches are carried explicitly.
-/

/-! ## Constants (thread.c / vaddr.h) -/

def PGSIZE : Nat := 4096

def DONATE_MAX_DEPTH : Nat := 8

def INT64_MAX : Int := 9223372036854775807

def TID_ERROR : Int := -1

/-! ## Pintos `list_insert_ordered` (lib/kernel/list.c)

Walks the list from the front and inserts the new element before the
first element `e` for which `less new e` holds; hence the new element is
placed after every existing element it does not strictly outrank. -/

def list_insert_ordered (less : α → α → Bool) (x : α) : List α → List α
  | [] => [x]
  | e :: rest => if less x e then x :: e :: rest else e :: list_insert_ordered less x rest

/-! ## Sleep service (thread.c lines 346-406)

`SThread` carries the fields of `struct thread` that the sleep service
reads: `tid`, `priority` (used by `thread_unblock`'s ordered insert) and
`wakeup_tick`. -/

structure SThread where
  tid : Nat
  priority : Int
  wakeup : Int
deriving DecidableEq, Repr

/-- Embeds `thread_compare_priority` (thread.c lines 409-413) at the
sleep-thread record: strict `>` on the `priority` field. -/
def sleep_compare_priority (a b : SThread) : Bool := decide (a.priority > b.priority)

/-- The global state the sleep service touches: `sleep_list`,
`ready_list` and `next_tick_to_awake` (thread.c lines 29-34). -/
structure TState where
  sleepList : List SThread
  readyList : List SThread
  nextTick : Int
deriving DecidableEq, Repr

/-- Embeds `update_next_tick_to_awake` (thread.c lines 347-350):
`next_tick_to_awake = (next_tick_to_awake > ticks) ? ticks : next_tick_to_awake`. -/
def update_next_tick_to_awake (next ticks : Int) : Int :=
  if next > ticks then ticks else next

/-- Embeds `thread_sleep` (thread.c lines 358-376): records
`wakeup_tick = ticks` on the current thread, updates
`next_tick_to_awake`, pushes the thread at the back of `sleep_list`
(then blocks; the block/reschedule itself is not tracked here). -/
def thread_sleep (cur : SThread) (ticks : Int) (s : TState) : TState :=
  { s with nextTick := update_next_tick_to_awake s.nextTick ticks,
           sleepList := s.sleepList ++ [{ cur with wakeup := ticks }] }

/-- The kernel state at boot: `thread_init` initializes the three lists,
but `next_tick_to_awake` (a C `static int64_t`) is only
zero-initialized by static storage semantics — no code sets it before
the first `thread_sleep`. -/
def bootState : TState :=
  { sleepList := [], readyList := [], nextTick := 0 }

/-- Loop body of `thread_awake` (thread.c lines 379-406): walks the
sleep list; a thread whose `wakeup_tick <= curr_tick` is removed and
unblocked (ordered insert into `ready_list`); any other thread stays
and folds its `wakeup_tick` into `next_tick_to_awake`. -/
def awakeLoop (now : Int) : List SThread → List SThread → Int → List SThread × List SThread × Int
  | [], ready, next => ([], ready, next)
  | t :: rest, ready, next =>
    if t.wakeup ≤ now then
      awakeLoop now rest (list_insert_ordered sleep_compare_priority t ready) next
    else
      let r := awakeLoop now rest ready (update_next_tick_to_awake next t.wakeup)
      (t :: r.1, r.2.1, r.2.2)

/-- Embeds `thread_awake` (thread.c lines 379-406): resets
`next_tick_to_awake` to `INT64_MAX`, then runs the sweep loop. -/
def thread_awake (now : Int) (s : TState) : TState :=
  let r := awakeLoop now s.sleepList s.readyList INT64_MAX
  { sleepList := r.1, readyList := r.2.1, nextTick := r.2.2 }

lemma awakeLoop_spec (now : Int) (l : List SThread) : ∀ (ready : List SThread) (next : Int),
    awakeLoop now l ready next =
      (l.filter (fun t => decide (now < t.wakeup)),
       (l.filter (fun t => decide (t.wakeup ≤ now))).foldl
         (fun r t => list_insert_ordered sleep_compare_priority t r) ready,
       (l.filter (fun t => decide (now < t.wakeup))).foldl
         (fun n t => update_next_tick_to_awake n t.wakeup) next) := by
  induction l with
  | nil => intro ready next; rfl
  | cons t rest ih =>
    intro ready next
    by_cases h : t.wakeup ≤ now
    · have h2 : ¬ now < t.wakeup := not_lt.mpr h
      simp only [awakeLoop, if_pos h, List.filter_cons, decide_eq_true_eq,
        h, h2, if_neg, decide_eq_false_iff_not, not_false_iff, ite_false, ite_true,
        List.foldl_cons, ih]
    · have h2 : now < t.wakeup := not_le.mp h
      simp only [awakeLoop, if_neg h, List.filter_cons, decide_eq_true_eq,
        h, h2, ite_true, ite_false, List.foldl_cons, ih]

/-- Claim C7: for every tick value `now`, the wake sweep resets
`next_tick_to_awake` to `INT64_MAX`, removes and unblocks (ordered
insert into the ready list) exactly the sleeping threads with
`wakeup_tick ≤ now`, keeps the others asleep, and leaves
`next_tick_to_awake` equal to the fold of the min-update over the
remaining threads' wakeup ticks starting from `INT64_MAX`. -/
theorem thread_awake_spec (now : Int) (s : TState) :
    (thread_awake now s).sleepList = s.sleepList.filter (fun t => decide (now < t.wakeup))
    ∧ (thread_awake now s).readyList =
        (s.sleepList.filter (fun t => decide (t.wakeup ≤ now))).foldl
          (fun r t => list_insert_ordered sleep_compare_priority t r) s.readyList
    ∧ (thread_awake now s).nextTick =
        (s.sleepList.filter (fun t => decide (now < t.wakeup))).foldl
          (fun n t => update_next_tick_to_awake n t.wakeup) INT64_MAX := by
  unfold thread_awake
  rw [awakeLoop_spec]
  exact ⟨rfl, rfl, rfl⟩

/-- Claim C4 (counterexample): `next_tick_to_awake` starts at `0` (C
static zero-initialization), so in the boot state the sleep list is
empty yet `next_tick_to_awake ≠ INT64_MAX`, and after the very first
`thread_sleep` with wakeup tick `100` the minimum pending tick is `100`
while `next_tick_to_awake` is still `0`. -/
theorem next_tick_boot_violation :
    bootState.sleepList = [] ∧ bootState.nextTick ≠ INT64_MAX
    ∧ (thread_sleep ⟨2, 31, 0⟩ 100 bootState).sleepList.map SThread.wakeup = [100]
    ∧ (thread_sleep ⟨2, 31, 0⟩ 100 bootState).nextTick = 0 := by
  refine ⟨rfl, by decide, rfl, rfl⟩

/-! ## Ready list and `thread_unblock` (thread.c lines 264-279, 408-413)

`RThread` carries the fields of `struct thread` the unblock path reads:
`tid`, `priority` (the effective priority) and `status`. -/

inductive TStatus where
  | running
  | ready
  | blocked
  | dying
deriving DecidableEq, Repr

structure RThread where
  tid : Nat
  priority : Int
  status : TStatus
deriving DecidableEq, Repr

/-- Embeds `thread_compare_priority` (thread.c lines 409-413): strict
`>` on effective priority. -/
def thread_compare_priority (a b : RThread) : Bool := decide (a.priority > b.priority)

/-- Boolean check that a thread list is sorted by effective priority in
descending order (the `ready_list` invariant). -/
def sortedDescB : List RThread → Bool
  | [] => true
  | [_] => true
  | a :: b :: rest => decide (b.priority ≤ a.priority) && sortedDescB (b :: rest)

/-- Embeds `thread_unblock` (thread.c lines 264-279): asserts
`t->status == THREAD_BLOCKED` (modelled as `none` on assertion
failure), inserts `t` into `ready_list` via `list_insert_ordered` with
`thread_compare_priority`, sets the status to `THREAD_READY`, and does
not touch the running thread (no preemption). -/
def thread_unblock (t : RThread) (ready : List RThread) (running : RThread) :
    Option (List RThread × RThread × RThread) :=
  if t.status = TStatus.blocked then
    some (list_insert_ordered thread_compare_priority { t with status := TStatus.ready } ready,
          { t with status := TStatus.ready }, running)
  else
    none

lemma list_insert_ordered_eq (less : α → α → Bool) (x : α) (l : List α) :
    list_insert_ordered less x l
      = l.takeWhile (fun e => !less x e) ++ x :: l.dropWhile (fun e => !less x e) := by
  induction l with
  | nil => rfl
  | cons e rest ih =>
    by_cases h : less x e
    · simp [list_insert_ordered, h, List.takeWhile_cons, List.dropWhile_cons]
    · simp [list_insert_ordered, h, List.takeWhile_cons, List.dropWhile_cons, ih]

lemma sortedDescB_cons_cons (a b : RThread) (l : List RThread) :
    sortedDescB (a :: b :: l) = (decide (b.priority ≤ a.priority) && sortedDescB (b :: l)) := rfl

lemma insert_ordered_sorted (t : RThread) :
    ∀ l : List RThread, sortedDescB l = true →
      sortedDescB (list_insert_ordered thread_compare_priority t l) = true := by
  intro l
  induction l with
  | nil => intro _; rfl
  | cons e rest ih =>
    intro hs
    by_cases hc : thread_compare_priority t e
    · have hlt : e.priority < t.priority := by simpa [thread_compare_priority] using hc
      have he : decide (e.priority ≤ t.priority) = true := decide_eq_true (le_of_lt hlt)
      have hins : list_insert_ordered thread_compare_priority t (e :: rest)
          = t :: e :: rest := by
        simp [list_insert_ordered, hc]
      rw [hins, sortedDescB_cons_cons, he, Bool.true_and]
      exact hs
    · have hnlt : ¬ e.priority < t.priority := by simpa [thread_compare_priority] using hc
      have hte : decide (t.priority ≤ e.priority) = true := decide_eq_true (not_lt.mp hnlt)
      have hins : list_insert_ordered thread_compare_priority t (e :: rest)
          = e :: list_insert_ordered thread_compare_priority t rest := by
        simp [list_insert_ordered, hc]
      rw [hins]
      cases rest with
      | nil =>
        rw [show list_insert_ordered thread_compare_priority t ([] : List RThread) = [t] from rfl,
          sortedDescB_cons_cons, hte, Bool.true_and]
        rfl
      | cons f rest' =>
        have hs2 := hs
        rw [sortedDescB_cons_cons] at hs2
        rw [Bool.and_eq_true] at hs2
        obtain ⟨hef, hfr⟩ := hs2
        have ihx := ih hfr
        by_cases hc2 : thread_compare_priority t f
        · have hlt2 : f.priority < t.priority := by simpa [thread_compare_priority] using hc2
          have hft : decide (f.priority ≤ t.priority) = true := decide_eq_true (le_of_lt hlt2)
          have hins2 : list_insert_ordered thread_compare_priority t (f :: rest')
              = t :: f :: rest' := by
            simp [list_insert_ordered, hc2]
          rw [hins2, sortedDescB_cons_cons, sortedDescB_cons_cons, hte, hft, hfr]
          rfl
        · have hins2 : list_insert_ordered thread_compare_priority t (f :: rest')
              = f :: list_insert_ordered thread_compare_priority t rest' := by
            simp [list_insert_ordered, hc2]
          rw [hins2] at ihx
          rw [hins2, sortedDescB_cons_cons, hef, Bool.true_and]
          exact ihx

/-- Claim C8: `thread_unblock` on a blocked thread passes its
assertion, inserts the thread into the ready list after every element
whose priority is at least its own (descending order with FIFO ties)
and before every element it strictly outranks, marks it `READY`, and
leaves the running thread unchanged (no preemption); the ordered insert
preserves the descending-sortedness invariant of the ready list. -/
theorem thread_unblock_spec (t run : RThread) (ready : List RThread)
    (hb : t.status = TStatus.blocked) (hs : sortedDescB ready = true) :
    thread_unblock t ready run
      = some (list_insert_ordered thread_compare_priority { t with status := TStatus.ready } ready,
              { t with status := TStatus.ready }, run)
    ∧ list_insert_ordered thread_compare_priority { t with status := TStatus.ready } ready
        = ready.takeWhile (fun e => decide (t.priority ≤ e.priority))
          ++ { t with status := TStatus.ready } :: ready.dropWhile (fun e => decide (t.priority ≤ e.priority))
    ∧ sortedDescB (list_insert_ordered thread_compare_priority { t with status := TStatus.ready } ready)
        = true := by
  refine ⟨by simp [thread_unblock, hb], ?_, insert_ordered_sorted _ ready hs⟩
  have hp : (fun e : RThread => !thread_compare_priority { t with status := TStatus.ready } e)
      = (fun e : RThread => decide (t.priority ≤ e.priority)) := by
    funext e
    simp [thread_compare_priority, ← decide_not, not_lt]
  rw [list_insert_ordered_eq, hp]

def run0 : RThread := ⟨0, 31, TStatus.running⟩

def rdy0 : List RThread :=
  [⟨1, 9, TStatus.ready⟩, ⟨2, 5, TStatus.ready⟩, ⟨4, 1, TStatus.ready⟩]

/-- Witness for C8: unblocking thread 3 of priority 5 into a sorted
ready list places it after the equal-priority thread 2 (FIFO tie) and
before thread 4, with the running thread untouched. -/
theorem thread_unblock_spec_witness :
    thread_unblock ⟨3, 5, TStatus.blocked⟩ rdy0 run0
      = some ([⟨1, 9, TStatus.ready⟩, ⟨2, 5, TStatus.ready⟩, ⟨3, 5, TStatus.ready⟩,
               ⟨4, 1, TStatus.ready⟩], ⟨3, 5, TStatus.ready⟩, run0) := by
  have h := (thread_unblock_spec ⟨3, 5, TStatus.blocked⟩ run0 rdy0 rfl (by decide)).1
  exact h

/-! ## Priority donation (thread.c lines 435-453)

The donation walk only reads three per-thread/per-lock fields:
`priority` (effective), `wait_on_lock` and the awaited lock's `holder`.
`DonState` carries them as maps over thread ids / lock ids. -/

structure DonState where
  priority : Nat → Int
  wait_on_lock : Nat → Option Nat
  holder : Nat → Option Nat

/-- The pointer chase `curr->wait_on_lock->holder` of one iteration of
`donate_priority` (thread.c lines 443-446): `none` when the current
thread waits on no lock (the loop's `break`). A held lock always has a
holder while a thread waits on it; a missing holder (a NULL dereference
in the C, unreachable in reachable kernel states) is modelled as ending
the walk. -/
def chainNext (s : DonState) (curr : Nat) : Option Nat :=
  match s.wait_on_lock curr with
  | none => none
  | some l => s.holder l

/-- The conditional uplift of one iteration of `donate_priority`
(thread.c lines 447-449): `if (holder->priority < curr->priority)
holder->priority = curr->priority;`. -/
def liftPriority (s : DonState) (curr h : Nat) : DonState :=
  if s.priority h < s.priority curr
  then { s with priority := fun u => if u = h then s.priority curr else s.priority u }
  else s

/-- The bounded walk of `donate_priority` (thread.c lines 441-452):
`for (depth = 0; depth < DONATE_MAX_DEPTH; depth++)` following
`chainNext` and applying `liftPriority`, then moving the focus to the
holder. -/
def donateLoop : Nat → Nat → DonState → DonState
  | 0, _, s => s
  | depth + 1, curr, s =>
    match chainNext s curr with
    | none => s
    | some h => donateLoop depth h (liftPriority s curr h)

/-- Embeds `donate_priority` (thread.c lines 437-453), started from the
current thread. -/
def donate_priority (s : DonState) (curr : Nat) : DonState :=
  donateLoop DONATE_MAX_DEPTH curr s

/-- The chain of holders `curr → wait_on_lock->holder → …` visited by a
walk of the given depth bound (it stops early where `chainNext` does). -/
def chainHolders : Nat → Nat → DonState → List Nat
  | 0, _, _ => []
  | depth + 1, curr, s =>
    match chainNext s curr with
    | none => []
    | some h => h :: chainHolders depth h s

/-- Boolean check that the priorities along a holder list ascend: each
blocked thread's effective priority is at most its lock holder's (the
invariant pre-existing donations maintain on reachable states). -/
def chainAscB (s : DonState) : List Nat → Bool
  | [] => true
  | [_] => true
  | a :: b :: rest => decide (s.priority a ≤ s.priority b) && chainAscB s (b :: rest)

lemma liftPriority_at (s : DonState) (curr h : Nat) :
    (liftPriority s curr h).priority h = max (s.priority h) (s.priority curr) := by
  unfold liftPriority
  split
  · next hlt => simp [max_eq_right (le_of_lt hlt)]
  · next hnlt => simp [max_eq_left (not_lt.mp hnlt)]

lemma liftPriority_ne (s : DonState) (curr h t : Nat) (hne : t ≠ h) :
    (liftPriority s curr h).priority t = s.priority t := by
  unfold liftPriority
  split
  · simp [hne]
  · rfl

lemma liftPriority_mono (s : DonState) (curr h t : Nat) :
    s.priority t ≤ (liftPriority s curr h).priority t := by
  unfold liftPriority
  split
  · next hlt =>
    by_cases he : t = h
    · subst he; simpa using le_of_lt hlt
    · simp [he]
  · exact le_refl _

lemma chainNext_lift (s : DonState) (curr h v : Nat) :
    chainNext (liftPriority s curr h) v = chainNext s v := by
  unfold liftPriority
  split <;> rfl

lemma chainHolders_lift (s : DonState) (curr h : Nat) :
    ∀ (depth v : Nat), chainHolders depth v (liftPriority s curr h) = chainHolders depth v s := by
  intro depth
  induction depth with
  | zero => intro v; rfl
  | succ depth ih =>
    intro v
    cases hn : chainNext s v with
    | none => simp [chainHolders, chainNext_lift, hn]
    | some h2 => simp [chainHolders, chainNext_lift, hn, ih]

lemma chainHolders_length_le : ∀ (depth curr : Nat) (s : DonState),
    (chainHolders depth curr s).length ≤ depth := by
  intro depth
  induction depth with
  | zero => intro curr s; exact le_refl _
  | succ depth ih =>
    intro curr s
    cases hn : chainNext s curr with
    | none => simp [chainHolders, hn]
    | some h =>
      simp only [chainHolders, hn, List.length_cons]
      exact Nat.succ_le_succ (ih h s)

lemma donateLoop_offchain : ∀ (depth curr : Nat) (s : DonState) (t : Nat),
    t ∉ chainHolders depth curr s →
    (donateLoop depth curr s).priority t = s.priority t := by
  intro depth
  induction depth with
  | zero => intro curr s t _; rfl
  | succ depth ih =>
    intro curr s t ht
    cases hn : chainNext s curr with
    | none => simp [donateLoop, hn]
    | some h =>
      rw [show donateLoop (depth+1) curr s = donateLoop depth h (liftPriority s curr h) by
        simp [donateLoop, hn]]
      rw [show chainHolders (depth+1) curr s = h :: chainHolders depth h s by
        simp [chainHolders, hn]] at ht
      have hth : t ≠ h := fun e => ht (e ▸ List.mem_cons_self h _)
      have htc : t ∉ chainHolders depth h s := fun e => ht (List.mem_cons_of_mem _ e)
      rw [ih h (liftPriority s curr h) t (by rwa [chainHolders_lift])]
      exact liftPriority_ne s curr h t hth

lemma donateLoop_mono : ∀ (depth curr : Nat) (s : DonState) (t : Nat),
    s.priority t ≤ (donateLoop depth curr s).priority t := by
  intro depth
  induction depth with
  | zero => intro curr s t; exact le_refl _
  | succ depth ih =>
    intro curr s t
    cases hn : chainNext s curr with
    | none => simp [donateLoop, hn]
    | some h =>
      rw [show donateLoop (depth+1) curr s = donateLoop depth h (liftPriority s curr h) by
        simp [donateLoop, hn]]
      exact (liftPriority_mono s curr h t).trans (ih h _ t)

lemma chainAscB_cons (s : DonState) (a b : Nat) (l : List Nat) :
    chainAscB s (a :: b :: l)
      = (decide (s.priority a ≤ s.priority b) && chainAscB s (b :: l)) := rfl

lemma chainAscB_tail (s : DonState) (a : Nat) : ∀ l : List Nat,
    chainAscB s (a :: l) = true → chainAscB s l = true := by
  intro l
  cases l with
  | nil => intro _; rfl
  | cons b l' =>
    intro h
    rw [chainAscB_cons, Bool.and_eq_true] at h
    exact h.2

lemma chainAscB_congr (s₁ s₂ : DonState) : ∀ l : List Nat,
    (∀ v ∈ l, s₁.priority v = s₂.priority v) → chainAscB s₁ l = chainAscB s₂ l := by
  intro l
  induction l with
  | nil => intro _; rfl
  | cons a rest ih =>
    intro hag
    cases rest with
    | nil => rfl
    | cons b l' =>
      rw [chainAscB_cons, chainAscB_cons,
        hag a (List.mem_cons_self a _), hag b (List.mem_cons_of_mem _ (List.mem_cons_self b _)),
        ih (fun v hv => hag v (List.mem_cons_of_mem _ hv))]

lemma chainAscB_head_le (s : DonState) : ∀ (l : List Nat) (a : Nat),
    chainAscB s (a :: l) = true → ∀ b ∈ l, s.priority a ≤ s.priority b := by
  intro l
  induction l with
  | nil => intro a _ b hb; simp at hb
  | cons c l' ih =>
    intro a hasc b hb
    rw [chainAscB_cons, Bool.and_eq_true] at hasc
    have h1 : s.priority a ≤ s.priority c := of_decide_eq_true hasc.1
    rcases List.mem_cons.mp hb with rfl | hb'
    · exact h1
    · exact h1.trans (ih c hasc.2 b hb')

lemma donateLoop_chain : ∀ (depth curr : Nat) (s : DonState),
    chainAscB s (chainHolders depth curr s) = true →
    (curr :: chainHolders depth curr s).Nodup →
    ∀ u ∈ chainHolders depth curr s,
      (donateLoop depth curr s).priority u = max (s.priority u) (s.priority curr) := by
  intro depth
  induction depth with
  | zero => intro curr s _ _ u hu; simp [chainHolders] at hu
  | succ depth ih =>
    intro curr s hasc hnd u hu
    cases hn : chainNext s curr with
    | none => rw [show chainHolders (depth+1) curr s = [] by simp [chainHolders, hn]] at hu; simp at hu
    | some h =>
      have hch : chainHolders (depth + 1) curr s = h :: chainHolders depth h s := by
        simp [chainHolders, hn]
      rw [hch] at hu hasc
      have hnd' : (curr :: h :: chainHolders depth h s).Nodup := by rwa [hch] at hnd
      have hloop : donateLoop (depth + 1) curr s = donateLoop depth h (liftPriority s curr h) := by
        simp [donateLoop, hn]
      have hchain' : chainHolders depth h (liftPriority s curr h) = chainHolders depth h s :=
        chainHolders_lift s curr h depth h
      have hA : (liftPriority s curr h).priority h = max (s.priority h) (s.priority curr) :=
        liftPriority_at s curr h
      have hhnotin : h ∉ chainHolders depth h s :=
        (List.nodup_cons.mp (List.nodup_cons.mp hnd').2).1
      rcases List.mem_cons.mp hu with rfl | huc
      · rw [hloop, donateLoop_offchain depth u (liftPriority s curr u) u (by rwa [hchain'])]
        exact hA
      · have hune : u ≠ h := fun e => hhnotin (e ▸ huc)
        have hasc' : chainAscB (liftPriority s curr h) (chainHolders depth h (liftPriority s curr h)) = true := by
          rw [hchain']
          rw [chainAscB_congr (liftPriority s curr h) s (chainHolders depth h s)
            (fun v hv => liftPriority_ne s curr h v (fun e => hhnotin (e ▸ hv)))]
          exact chainAscB_tail s h _ hasc
        have hnd2 : (h :: chainHolders depth h (liftPriority s curr h)).Nodup := by
          rw [hchain']
          exact (List.nodup_cons.mp hnd').2
        have hres := ih h (liftPriority s curr h) hasc' hnd2 u (by rwa [hchain'])
        rw [hloop, hres, liftPriority_ne s curr h u hune, hA,
          show max (s.priority u) (max (s.priority h) (s.priority curr))
              = max (max (s.priority u) (s.priority h)) (s.priority curr) from (max_assoc _ _ _).symm,
          max_eq_left (chainAscB_head_le s _ h hasc u huc)]

/-- Claim C5: on a held lock, the donation walk follows the chain
`current → wait_on_lock->holder → …`, visits at most
`DONATE_MAX_DEPTH = 8` holders (stopping early when a thread waits on
no lock), and — given the invariant that pre-existing donation links
ascend in effective priority and the chain is cycle-free — lifts each
holder on the chain to the chain-tip (acquiring thread's) effective
priority, i.e. to the max of its old priority and the tip's. -/
theorem donate_priority_chain (s : DonState) (t0 : Nat)
    (hasc : chainAscB s (chainHolders DONATE_MAX_DEPTH t0 s) = true)
    (hnd : (t0 :: chainHolders DONATE_MAX_DEPTH t0 s).Nodup) :
    (chainHolders DONATE_MAX_DEPTH t0 s).length ≤ DONATE_MAX_DEPTH
    ∧ ∀ u ∈ chainHolders DONATE_MAX_DEPTH t0 s,
        (donate_priority s t0).priority u = max (s.priority u) (s.priority t0) :=
  ⟨chainHolders_length_le DONATE_MAX_DEPTH t0 s,
   donateLoop_chain DONATE_MAX_DEPTH t0 s hasc hnd⟩

/-- Claim C10: a single `donate_priority` call never decreases any
thread's effective priority; a thread whose priority changed lies on
the visited holder chain and was strictly below its new value; threads
off the chain are untouched. -/
theorem donate_priority_monotone (s : DonState) (t0 : Nat) :
    (∀ t, s.priority t ≤ (donate_priority s t0).priority t)
    ∧ (∀ t, (donate_priority s t0).priority t ≠ s.priority t →
        t ∈ chainHolders DONATE_MAX_DEPTH t0 s
        ∧ s.priority t < (donate_priority s t0).priority t)
    ∧ (∀ t, t ∉ chainHolders DONATE_MAX_DEPTH t0 s →
        (donate_priority s t0).priority t = s.priority t) := by
  refine ⟨fun t => donateLoop_mono DONATE_MAX_DEPTH t0 s t, fun t hne => ⟨?_, ?_⟩,
    fun t ht => donateLoop_offchain DONATE_MAX_DEPTH t0 s t ht⟩
  · by_contra hmem
    exact hne (donateLoop_offchain DONATE_MAX_DEPTH t0 s t hmem)
  · exact lt_of_le_of_ne (donateLoop_mono DONATE_MAX_DEPTH t0 s t) (Ne.symm hne)

/-- A concrete donation scenario: thread 0 (priority 30) waits on lock
0 held by thread 1 (priority 10), which waits on lock 1 held by thread
2 (priority 20); thread 5 (priority 7) is unrelated. -/
def exS : DonState :=
  { priority := fun t => if t = 0 then 30 else if t = 1 then 10 else if t = 2 then 20 else 7,
    wait_on_lock := fun t => if t = 0 then some 0 else if t = 1 then some 1 else none,
    holder := fun l => if l = 0 then some 1 else if l = 1 then some 2 else none }

/-- Witness for C5: in the scenario `exS` the walk lifts both chained
holders 1 and 2 to the chain tip's priority 30. -/
theorem donate_priority_chain_witness :
    (donate_priority exS 0).priority 1 = 30 ∧ (donate_priority exS 0).priority 2 = 30 := by
  have h := donate_priority_chain exS 0 (by decide) (by decide)
  exact ⟨(h.2 1 (by decide)).trans (by decide), (h.2 2 (by decide)).trans (by decide)⟩

/-- Witness for C10: in the scenario `exS` the off-chain thread 5 is
untouched and the chained thread 2 does not decrease. -/
theorem donate_priority_monotone_witness :
    (donate_priority exS 0).priority 5 = exS.priority 5
    ∧ exS.priority 2 ≤ (donate_priority exS 0).priority 2 := by
  have h := donate_priority_monotone exS 0
  exact ⟨h.2.2 5 (by decide), h.1 2⟩

/-! ## `refresh_priority` (thread.c lines 415-420, 475-490)

A donor in `donations` is represented by its current effective
priority (the only field `refresh_priority` reads). -/

/-- Embeds `thread_compare_donate_priority` (thread.c lines 417-420):
strict `>` on the donors' effective priorities. -/
def thread_compare_donate_priority (a b : Int) : Bool := decide (a > b)

/-- Embeds the Pintos `list_sort` call (lib/kernel/list.c) as a sort by
repeated ordered insertion with the given comparator; only the front
element (a maximum under `less`) is consumed by `refresh_priority`. -/
def list_sort (less : α → α → Bool) : List α → List α
  | [] => []
  | x :: xs => list_insert_ordered less x (list_sort less xs)

/-- Embeds `refresh_priority` (thread.c lines 475-490): reset the
effective priority to `init_priority`; if `donations` is nonempty, sort
it descending and lift to the front donor's priority when that is
higher. -/
def refresh_priority (init_priority : Int) (donations : List Int) : Int :=
  if donations.isEmpty then init_priority
  else
    match list_sort thread_compare_donate_priority donations with
    | [] => init_priority
    | front :: _ => if front > init_priority then front else init_priority

lemma insert_ordered_ne_nil (less : α → α → Bool) (x : α) (l : List α) :
    list_insert_ordered less x l ≠ [] := by
  cases l with
  | nil => simp [list_insert_ordered]
  | cons e rest =>
    unfold list_insert_ordered
    split <;> simp

lemma list_sort_eq_nil (less : α → α → Bool) :
    ∀ l : List α, list_sort less l = [] → l = [] := by
  intro l h
  cases l with
  | nil => rfl
  | cons x xs => exact absurd h (insert_ordered_ne_nil less x (list_sort less xs))

lemma sort_head_max : ∀ (l : List Int) (f : Int) (t : List Int),
    list_sort thread_compare_donate_priority l = f :: t →
    (∀ y ∈ l, y ≤ f) ∧ f ∈ l := by
  intro l
  induction l with
  | nil => intro f t h; simp [list_sort] at h
  | cons x xs ih =>
    intro f t h
    rw [show list_sort thread_compare_donate_priority (x :: xs)
        = list_insert_ordered thread_compare_donate_priority x
            (list_sort thread_compare_donate_priority xs) from rfl] at h
    cases hxs : list_sort thread_compare_donate_priority xs with
    | nil =>
      rw [hxs] at h
      obtain ⟨rfl, -⟩ : f = x ∧ t = [] := by
        simpa [list_insert_ordered] using h.symm
      have hxsnil : xs = [] := list_sort_eq_nil _ xs hxs
      subst hxsnil
      exact ⟨by simp, by simp⟩
    | cons e r =>
      rw [hxs] at h
      have ihx := ih e r hxs
      by_cases hc : thread_compare_donate_priority x e
      · have hxe : e < x := by simpa [thread_compare_donate_priority] using hc
        rw [show list_insert_ordered thread_compare_donate_priority x (e :: r)
            = x :: e :: r by simp [list_insert_ordered, hc]] at h
        obtain ⟨rfl, -⟩ := List.cons.inj h
        refine ⟨?_, List.mem_cons_self _ _⟩
        intro y hy
        rcases List.mem_cons.mp hy with rfl | hy'
        · exact le_refl _
        · exact (ihx.1 y hy').trans (le_of_lt hxe)
      · have hxe : x ≤ e := not_lt.mp (by simpa [thread_compare_donate_priority] using hc)
        rw [show list_insert_ordered thread_compare_donate_priority x (e :: r)
            = e :: list_insert_ordered thread_compare_donate_priority x r by
          simp [list_insert_ordered, hc]] at h
        obtain ⟨rfl, -⟩ := List.cons.inj h
        refine ⟨?_, List.mem_cons_of_mem _ ihx.2⟩
        intro y hy
        rcases List.mem_cons.mp hy with rfl | hy'
        · exact hxe
        · exact ihx.1 y hy'

lemma le_foldr_max_init (init : Int) : ∀ ds : List Int, init ≤ ds.foldr max init := by
  intro ds
  induction ds with
  | nil => exact le_refl _
  | cons x xs ih => exact ih.trans (le_max_right x _)

lemma mem_le_foldr_max (init : Int) : ∀ (ds : List Int) (y : Int), y ∈ ds → y ≤ ds.foldr max init := by
  intro ds
  induction ds with
  | nil => intro y hy; simp at hy
  | cons x xs ih =>
    intro y hy
    rcases List.mem_cons.mp hy with rfl | hy'
    · exact le_max_left _ _
    · exact (ih y hy').trans (le_max_right x _)

lemma foldr_max_le (init b : Int) : ∀ ds : List Int,
    (∀ y ∈ ds, y ≤ b) → init ≤ b → ds.foldr max init ≤ b := by
  intro ds
  induction ds with
  | nil => intro _ h; exact h
  | cons x xs ih =>
    intro hub hib
    exact max_le (hub x (List.mem_cons_self _ _))
      (ih (fun y hy => hub y (List.mem_cons_of_mem _ hy)) hib)

/-- Claim C6: after `refresh_priority`, the thread's effective priority
equals the maximum of its base (`init_priority`) and the effective
priorities of all its current donors, hence is at least its base
priority. -/
theorem refresh_priority_spec (init_priority : Int) (donations : List Int) :
    refresh_priority init_priority donations = donations.foldr max init_priority
    ∧ init_priority ≤ refresh_priority init_priority donations := by
  by_cases hds : donations.isEmpty
  · have : donations = [] := by simpa [List.isEmpty_iff] using hds
    subst this
    exact ⟨by simp [refresh_priority], le_refl _⟩
  · cases hs : list_sort thread_compare_donate_priority donations with
    | nil =>
      exact absurd (list_sort_eq_nil _ _ hs)
        (by simpa [List.isEmpty_iff] using hds)
    | cons f t =>
      obtain ⟨hub, hmem⟩ := sort_head_max donations f t hs
      have hval : refresh_priority init_priority donations
          = if f > init_priority then f else init_priority := by
        simp [refresh_priority, hds, hs]
      have hmax : (if f > init_priority then f else init_priority) = max init_priority f := by
        rcases lt_or_ge init_priority f with hlt | hge
        · simp [hlt, max_eq_right (le_of_lt hlt)]
        · simp [not_lt.mpr hge, max_eq_left hge]
      have hfold : donations.foldr max init_priority = max init_priority f := by
        refine le_antisymm ?_ ?_
        · exact foldr_max_le _ _ _ (fun y hy => (hub y hy).trans (le_max_right _ _))
            (le_max_left _ _)
        · exact max_le (le_foldr_max_init _ _) (mem_le_foldr_max _ _ f hmem)
      rw [hval, hmax, hfold]
      exact ⟨rfl, le_max_left _ _⟩

/-! ## `thread_create` (thread.c lines 188-240)

The embedding tracks the state `thread_create` mutates outside the new
thread's own page: the parent's `children` list (FIFO push at line
211), the `ready_list` (via `thread_unblock` at line 236) and the tid
counter (`allocate_tid`, line 205). The outcomes of the two allocations
(`palloc_get_page` for the thread page, line 199, and
`palloc_get_multiple` for the FDT, line 218) are passed as booleans. -/

structure TCState where
  children : List Nat
  readyList : List (Nat × Int)
  nextTid : Nat
deriving DecidableEq, Repr

inductive TCResult where
  | ok (tid : Int) (s : TCState)
  | nullPageWrite (s : TCState)
deriving DecidableEq, Repr

/-- Embeds `thread_create` (thread.c lines 188-240). When
`palloc_get_page` fails the code returns `TID_ERROR` before mutating
anything. When `palloc_get_multiple` for the FDT fails, the code does
not check the result and executes `t->fdt[0] = 10` — a store through
the NULL `fdt` pointer, modelled as `nullPageWrite` carrying the state
already mutated by then (the child is registered in the parent's
`children` list and a tid was consumed). On success the new thread is
enqueued by priority (`thread_unblock`); the trap-frame setup and the
`test_max_priority` preemption check are not tracked here. -/
def thread_create (priority : Int) (pageAllocOk fdtAllocOk : Bool) (s : TCState) : TCResult :=
  if pageAllocOk = false then
    TCResult.ok TID_ERROR s
  else
    let tid := s.nextTid
    let s1 : TCState := { s with children := s.children ++ [tid], nextTid := s.nextTid + 1 }
    if fdtAllocOk = false then
      TCResult.nullPageWrite s1
    else
      TCResult.ok (Int.ofNat tid)
        { s1 with readyList :=
            list_insert_ordered (fun a b => decide (a.2 > b.2)) (tid, priority) s1.readyList }

def tcS0 : TCState := { children := [], readyList := [], nextTid := 7 }

/-- Claim C2 (failing execution): when the thread-page allocation
fails, `thread_create` does return `TID_ERROR` with no partial state;
but when the thread page is allocated and the FDT allocation fails, the
call does not return `TID_ERROR` — it stores through the NULL `fdt`
pointer with the child already registered in the parent's `children`
list. -/
theorem thread_create_fdt_null :
    thread_create 31 false false tcS0 = TCResult.ok TID_ERROR tcS0
    ∧ thread_create 31 true false tcS0
        = TCResult.nullPageWrite { children := [7], readyList := [], nextTid := 8 }
    ∧ thread_create 31 true false tcS0 ≠ TCResult.ok TID_ERROR tcS0 := by
  exact ⟨rfl, rfl, by decide⟩

/-! ## File-backed pages and mmap (src/vm/file.c)

The supplemental page table (SPT) is modelled as an association list
from page-aligned user virtual addresses to SPTE payloads. For `mmap`
the payload is the per-page `mmap_info` recorded by `do_mmap`
(file offset and `read_bytes`) plus writability. -/

structure FSpte where
  ofs : Nat
  read_bytes : Nat
  writable : Bool
deriving DecidableEq, Repr

/-- Modelled from the spec: `vm_alloc_page_with_initializer` is only
declared in the sources (vm.c is absent); spec §4.5:
"`alloc_with_initializer(type, vaddr, writable, initializer, aux)`:
inserts an `UNINIT` SPTE. Errors: `vaddr` not page-aligned, already
present." -/
def vm_alloc_page_with_init_fn (spt : List (Nat × FSpte)) (vaddr : Nat) (e : FSpte) :
    Option (List (Nat × FSpte)) :=
  if vaddr % PGSIZE = 0 then
    match spt.lookup vaddr with
    | some _ => none
    | none => some ((vaddr, e) :: spt)
  else none

/-- One per-page step of `do_mmap`'s loop (file.c line 110): call the
allocator and IGNORE its result, exactly as the C does — on failure the
SPT is simply left as it was and the loop continues. -/
def allocIgnore (spt : List (Nat × FSpte)) (vaddr : Nat) (e : FSpte) : List (Nat × FSpte) :=
  match vm_alloc_page_with_init_fn spt vaddr e with
  | none => spt
  | some s2 => s2

/-- Embeds `pg_round_down` (threads/vaddr.h). -/
def pg_round_down (x : Nat) : Nat := x - x % PGSIZE

/-- Embeds `struct mmap_file_info` (file.c lines 24-29): start address
and start address of the final page. -/
structure MmapFileInfo where
  start : Nat
  end_ : Nat
deriving DecidableEq, Repr

/-- Embeds the loop of `do_mmap` (file.c lines 103-111): for
`i = 0; i < length; i += PGSIZE`, build the per-page `mmap_info`
(`ofs = offset + i`, `read_bytes = min(PGSIZE, length - i)`, and a
per-page `file_reopen` handle, not tracked here) and call the
allocator, ignoring its result. -/
def mmapLoop (addr length offset : Nat) (writable : Bool) (i : Nat)
    (spt : List (Nat × FSpte)) : List (Nat × FSpte) :=
  if _h : i < length then
    mmapLoop addr length offset writable (i + PGSIZE)
      (allocIgnore spt (addr + i)
        ⟨offset + i, if length - i ≥ PGSIZE then PGSIZE else length - i, writable⟩)
  else spt
termination_by length - i
decreasing_by simp only [PGSIZE]; omega

/-- Embeds `do_mmap` (file.c lines 97-117): run the per-page loop, push
the `mmap_file_info` record `(addr, pg_round_down (addr + length - 1))`
at the back of the mmap list, and return `addr`. -/
def do_mmap (addr length : Nat) (writable : Bool) (offset : Nat)
    (spt : List (Nat × FSpte)) (ml : List MmapFileInfo) :
    List (Nat × FSpte) × List MmapFileInfo × Nat :=
  (mmapLoop addr length offset writable 0 spt,
   ml ++ [⟨addr, pg_round_down (addr + length - 1)⟩],
   addr)

/-! ## `do_munmap` (file.c lines 120-122)

`MEntry` is the part of a FILE SPTE that tearing a mapping down would
have to read (the hardware dirty bit and the recorded file offset /
valid byte count); `MunState` is the process state `do_munmap`
receives: the supplemental page table and the mmap record list. -/

structure MEntry where
  dirty : Bool
  ofs : Nat
  size : Nat
deriving DecidableEq, Repr

structure MunState where
  spt : List (Nat × MEntry)
  mmapList : List MmapFileInfo
deriving DecidableEq, Repr

/-- Embeds `do_munmap` (file.c lines 120-122) as it stands in the
source: the function body is empty, so a call performs no operation —
it looks up no `mmap_file_info` record, removes no SPTE, writes nothing
back to any file, and returns with the state untouched; being `void`
with an empty body, it has no failure result at all. -/
def do_munmap (_addr : Nat) (s : MunState) : MunState := s

/-! ## `file_backed_destroy` and `lazy_load_file` (file.c lines 63-94)

A backing file is modelled as an infinite byte tape with an explicit
length, a seek position and a closed flag. -/

structure MFile where
  data : Nat → Nat
  len : Nat
  pos : Nat
  closed : Bool

/-- Embeds `file_seek`. -/
def file_seek (f : MFile) (ofs : Nat) : MFile := { f with pos := ofs }

/-- Embeds `file_write` of `n` bytes taken from the buffer `buf`
(indexed from 0) at the current position. -/
def file_write (f : MFile) (buf : Nat → Nat) (n : Nat) : MFile :=
  { f with
    data := fun i => if f.pos ≤ i ∧ i < f.pos + n then buf (i - f.pos) else f.data i,
    len := max f.len (f.pos + n),
    pos := f.pos + n }

/-- Embeds `file_close`. -/
def file_close (f : MFile) : MFile := { f with closed := true }

/-- Embeds `file_backed_destroy` (file.c lines 63-79): if the hardware
page is dirty, seek to the recorded offset and write back exactly
`size` (= `file_page->size`, the valid bytes) bytes of the page, then
close the per-page file handle. `va` is the page content, `dirty` the
`pml4_is_dirty` result. The frame-list unlinking (lines 75-78) touches
no file state and is not tracked here. -/
def file_backed_destroy (dirty : Bool) (va : Nat → Nat) (ofs size : Nat) (f : MFile) : MFile :=
  file_close (if dirty then file_write (file_seek f ofs) va size else f)

/-- The page-side fields `lazy_load_file` establishes: the loaded
content, `file.size` (the `file_read` return value), `file.ofs`, and
the dirty bit (cleared by `pml4_set_dirty(..., false)`). -/
structure LoadedFilePage where
  content : Nat → Nat
  size : Nat
  ofs : Nat
  dirty : Bool

/-- Embeds `lazy_load_file` (file.c lines 82-94): seek to the mmap
offset, read up to `read_bytes` bytes (a read at or past EOF returns
fewer), record the count as `file.size` and the offset as `file.ofs`,
zero the remainder of the page, and clear the hardware dirty bit. -/
def lazy_load_file (f : MFile) (offset read_bytes : Nat) : LoadedFilePage :=
  let bytesRead := min read_bytes (f.len - offset)
  { content := fun i => if i < bytesRead then f.data (offset + i) else 0,
    size := bytesRead,
    ofs := offset,
    dirty := false }

/-- Claim C9: destroying a FILE-backed page always closes the per-page
file handle; if the page is dirty, exactly its `size` valid bytes are
written to the file at the recorded offset (file bytes outside
`[ofs, ofs + size)` — in particular the page bytes beyond the valid
count — are never written); if the page is clean, the file data is
untouched; and a freshly lazy-loaded page is clean, so destroying it
untouched writes nothing. -/
theorem file_backed_destroy_spec (dirty : Bool) (va : Nat → Nat) (ofs size : Nat) (f : MFile) :
    (file_backed_destroy dirty va ofs size f).closed = true
    ∧ (dirty = true →
        (∀ i, ofs ≤ i → i < ofs + size →
          (file_backed_destroy dirty va ofs size f).data i = va (i - ofs))
        ∧ (∀ i, i < ofs ∨ ofs + size ≤ i →
          (file_backed_destroy dirty va ofs size f).data i = f.data i))
    ∧ (dirty = false → (file_backed_destroy dirty va ofs size f).data = f.data)
    ∧ (∀ offset read_bytes, (lazy_load_file f offset read_bytes).dirty = false) := by
  refine ⟨rfl, ?_, ?_, fun _ _ => rfl⟩
  · intro hd
    subst hd
    constructor
    · intro i h1 h2
      simp [file_backed_destroy, file_close, file_write, file_seek, h1, h2]
    · intro i h
      rcases h with h | h
      · simp [file_backed_destroy, file_close, file_write, file_seek]
        intro h1
        omega
      · simp [file_backed_destroy, file_close, file_write, file_seek]
        intro _ h2
        omega
  · intro hd
    subst hd
    rfl

def mf0 : MFile :=
  { data := fun i => i + 2, len := 4500, pos := 0, closed := false }

/-- Witness for C9: destroying a dirty page of 3 valid bytes at offset
10 writes exactly bytes 10..12 from the page and leaves byte 13 and
byte 9 of the file untouched, closing the handle; the clean case
leaves the data function unchanged. -/
theorem file_backed_destroy_spec_witness :
    (file_backed_destroy true (fun i => 100 + i) 10 3 mf0).closed = true
    ∧ (file_backed_destroy true (fun i => 100 + i) 10 3 mf0).data 11 = 101
    ∧ (file_backed_destroy true (fun i => 100 + i) 10 3 mf0).data 13 = mf0.data 13
    ∧ (file_backed_destroy true (fun i => 100 + i) 10 3 mf0).data 9 = mf0.data 9
    ∧ (file_backed_destroy false (fun i => 100 + i) 10 3 mf0).data = mf0.data := by
  have h := file_backed_destroy_spec true (fun i => 100 + i) 10 3 mf0
  have h2 := file_backed_destroy_spec false (fun i => 100 + i) 10 3 mf0
  refine ⟨h.1, ?_, (h.2.1 rfl).2 13 (by omega), (h.2.1 rfl).2 9 (by omega), h2.2.2.1 rfl⟩
  have := (h.2.1 rfl).1 11 (by omega) (by omega)
  simpa using this

lemma lookup_cons_eq {β : Type} (k : Nat) (b : β) (l : List (Nat × β)) :
    ((k, b) :: l).lookup k = some b := by
  simp [List.lookup]

lemma lookup_cons_ne {β : Type} (k v : Nat) (b : β) (l : List (Nat × β)) (h : v ≠ k) :
    ((k, b) :: l).lookup v = l.lookup v := by
  have hb : (v == k) = false := beq_eq_false_iff_ne.mpr h
  simp [List.lookup, hb]

lemma vm_alloc_some (spt : List (Nat × FSpte)) (vaddr : Nat) (e : FSpte)
    (s2 : List (Nat × FSpte)) (h : vm_alloc_page_with_init_fn spt vaddr e = some s2) :
    spt.lookup vaddr = none ∧ s2 = (vaddr, e) :: spt := by
  unfold vm_alloc_page_with_init_fn at h
  split at h
  · cases hlk : spt.lookup vaddr with
    | some _ => rw [hlk] at h; simp at h
    | none => rw [hlk] at h; simp at h; exact ⟨rfl, h.symm⟩
  · simp at h

lemma allocIgnore_lookup_ne (spt : List (Nat × FSpte)) (vaddr : Nat) (e : FSpte) (v : Nat)
    (hne : v ≠ vaddr) : (allocIgnore spt vaddr e).lookup v = spt.lookup v := by
  unfold allocIgnore
  cases halloc : vm_alloc_page_with_init_fn spt vaddr e with
  | none => rfl
  | some s2 =>
    obtain ⟨-, rfl⟩ := vm_alloc_some _ _ _ _ halloc
    exact lookup_cons_ne _ _ _ _ hne

lemma allocIgnore_present (spt : List (Nat × FSpte)) (vaddr : Nat) (e e0 : FSpte)
    (h : spt.lookup vaddr = some e0) : allocIgnore spt vaddr e = spt := by
  have hnone : vm_alloc_page_with_init_fn spt vaddr e = none := by
    unfold vm_alloc_page_with_init_fn
    rw [h]
    split <;> rfl
  unfold allocIgnore
  rw [hnone]

lemma allocIgnore_absent (spt : List (Nat × FSpte)) (vaddr : Nat) (e : FSpte)
    (hal : vaddr % PGSIZE = 0) (h : spt.lookup vaddr = none) :
    (allocIgnore spt vaddr e).lookup vaddr = some e := by
  unfold allocIgnore vm_alloc_page_with_init_fn
  rw [if_pos hal, h]
  simp [List.lookup]

lemma mmapLoop_lookup_out (addr length offset : Nat) (writable : Bool) :
    ∀ (n i : Nat), length - i ≤ n → ∀ (spt : List (Nat × FSpte)) (v : Nat), v < addr + i →
      (mmapLoop addr length offset writable i spt).lookup v = spt.lookup v := by
  intro n
  induction n with
  | zero =>
    intro i hn spt v hv
    rw [mmapLoop, dif_neg (by omega)]
  | succ n ih =>
    intro i hn spt v hv
    by_cases hil : i < length
    · rw [mmapLoop, dif_pos hil,
        ih (i + PGSIZE) (by simp only [PGSIZE] at *; omega) _ v (by simp only [PGSIZE]; omega)]
      exact allocIgnore_lookup_ne _ _ _ _ (by omega)
    · rw [mmapLoop, dif_neg hil]

lemma mmapLoop_lookup_page (addr length offset : Nat) (writable : Bool)
    (haddr : addr % PGSIZE = 0) (k : Nat) (hk : k % PGSIZE = 0) (hkl : k < length) :
    ∀ (n i : Nat), length - i ≤ n → i % PGSIZE = 0 → i ≤ k →
      ∀ spt : List (Nat × FSpte),
      (mmapLoop addr length offset writable i spt).lookup (addr + k)
        = some ((spt.lookup (addr + k)).getD
            ⟨offset + k, if length - k ≥ PGSIZE then PGSIZE else length - k, writable⟩) := by
  intro n
  induction n with
  | zero => intro i hn hi hik spt; exact absurd hkl (by omega)
  | succ n ih =>
    intro i hn hi hik spt
    have hil : i < length := by omega
    rw [mmapLoop, dif_pos hil]
    have hal2 : (addr + i) % PGSIZE = 0 := by simp only [PGSIZE] at *; omega
    by_cases hek : i = k
    · subst hek
      rw [mmapLoop_lookup_out addr length offset writable (length - (i + PGSIZE)) (i + PGSIZE)
        (le_refl _) _ (addr + i) (by simp only [PGSIZE]; omega)]
      cases hlk : spt.lookup (addr + i) with
      | some e0 =>
        rw [allocIgnore_present spt (addr + i) _ e0 hlk, hlk]
        rfl
      | none =>
        rw [allocIgnore_absent spt (addr + i) _ hal2 hlk]
        rfl
    · have hik2 : i + PGSIZE ≤ k := by simp only [PGSIZE] at *; omega
      rw [ih (i + PGSIZE) (by simp only [PGSIZE] at *; omega)
        (by simp only [PGSIZE] at *; omega) hik2 _]
      rw [allocIgnore_lookup_ne spt (addr + i) _ (addr + k) (by omega)]

/-- Claim C1 (amended): `do_mmap` ignores per-page insertion failures —
for every page-aligned page of the request, an already-present SPT
entry is left in place while every other page of the request still gets
its SPTE installed (offset `offset + k`, `read_bytes =
min(PGSIZE, length - k)`); the mmap record is pushed and `addr`
returned regardless, so an overlapping request is neither rejected
atomically nor reported. -/
theorem do_mmap_overlap_ignored (spt : List (Nat × FSpte)) (ml : List MmapFileInfo)
    (addr length offset : Nat) (writable : Bool) (k : Nat)
    (haddr : addr % PGSIZE = 0) (hk : k % PGSIZE = 0) (hkl : k < length) :
    (do_mmap addr length writable offset spt ml).2.2 = addr
    ∧ (do_mmap addr length writable offset spt ml).2.1
        = ml ++ [⟨addr, pg_round_down (addr + length - 1)⟩]
    ∧ (do_mmap addr length writable offset spt ml).1.lookup (addr + k)
        = some ((spt.lookup (addr + k)).getD
            ⟨offset + k, if length - k ≥ PGSIZE then PGSIZE else length - k, writable⟩) := by
  refine ⟨rfl, rfl, ?_⟩
  exact mmapLoop_lookup_page addr length offset writable haddr k hk hkl
    (length - 0) 0 (le_refl _) (by simp) (Nat.zero_le _) spt

def sptC1 : List (Nat × FSpte) := [(4096, ⟨0, 4096, true⟩)]

/-- Claim C1 (counterexample to the claim as stated): with page 4096
already mapped in the SPT, `do_mmap` of two pages at 4096 is not
rejected — the second page's SPTE is installed at 8192, a partial
installation. -/
theorem do_mmap_not_atomic :
    sptC1.lookup 4096 = some ⟨0, 4096, true⟩
    ∧ sptC1.lookup 8192 = none
    ∧ (do_mmap 4096 8192 true 0 sptC1 []).1.lookup 8192 = some ⟨4096, 4096, true⟩ := by
  refine ⟨by decide, by decide, ?_⟩
  have h := mmapLoop_lookup_page 4096 8192 0 true (by decide) 4096 (by decide) (by decide)
    8192 0 (by decide) (by decide) (by decide) sptC1
  norm_num at h
  exact h.trans (by decide)

/-- Witness for C1 (amended): in the same overlapping request, the
already-mapped page 4096 keeps its old SPT entry (that page of the
request is not installed), while the record push and return value are
unchanged. -/
theorem do_mmap_overlap_ignored_witness :
    (do_mmap 4096 8192 true 0 sptC1 []).2.2 = 4096
    ∧ (do_mmap 4096 8192 true 0 sptC1 []).1.lookup 4096 = some ⟨0, 4096, true⟩ := by
  have h := do_mmap_overlap_ignored sptC1 [] 4096 8192 0 true 0
    (by decide) (by decide) (by decide)
  refine ⟨h.1, ?_⟩
  have h2 := h.2.2
  norm_num at h2
  exact h2.trans (by decide)

def sptW : List (Nat × MEntry) := [(4096, ⟨true, 0, 4096⟩), (8192, ⟨false, 4096, 404⟩)]

def sW : MunState := { spt := sptW, mmapList := [⟨4096, 8192⟩] }

/-- Claim C3 (failing execution): `do_munmap` is an empty stub, so on
the address of a live two-page mapping it leaves the state untouched —
the mmap record stays, the SPT still holds both pages (including the
dirty one, which is never written back) — and a second call does
exactly the same; with no failure result, it cannot fail with
`NotMapped` either. -/
theorem do_munmap_noop :
    do_munmap 4096 sW = sW
    ∧ do_munmap 4096 (do_munmap 4096 sW) = sW
    ∧ sW.mmapList = [⟨4096, 8192⟩]
    ∧ sW.spt.lookup 4096 = some ⟨true, 0, 4096⟩
    ∧ sW.spt.lookup 8192 = some ⟨false, 4096, 404⟩ := by
  exact ⟨rfl, rfl, rfl, by decide, by decide⟩
